import Mathlib

/-!
Verification of the nyse-trade-halts tool: a shallow embedding of its CSV
feed parser, snapshot differ and watch-cycle orchestration, with theorems
about the behaviours the design document describes.

The embedding follows the Go source: `parseTradeHalts` mirrors the CSV
record loop, `diffStep`/`diffHalts` mirror the body of the watch loop over
`prevHalts`, `fetchTradeHalts`/`watchCycle` mirror the fetch path including
the Last-Modified header handling.  I/O boundaries (HTTP status, decoded
CSV rows, the outcome of parsing the Last-Modified header) are passed in as
explicit arguments.
-/

namespace NyseHalts

/-- A calendar timestamp, the result of Go's
time.ParseInLocation with layout 2006-01-02 15:04:05 (zone is the constant
America/New_York so it carries no information). Go's zero time.Time is
modelled as none of Option DateTime. -/
structure DateTime where
  year : Nat
  month : Nat
  day : Nat
  hour : Nat
  minute : Nat
  second : Nat
deriving DecidableEq, Repr

/-- Value of a decimal digit character. -/
def digit (c : Char) : Option Nat :=
  if c.isDigit then some (c.toNat - 48) else none

/-- Two-digit decimal number. -/
def num2 (a b : Char) : Option Nat := do
  let x ← digit a
  let y ← digit b
  pure (10 * x + y)

/-- Four-digit decimal number. -/
def num4 (a b c d : Char) : Option Nat := do
  let x ← digit a
  let y ← digit b
  let z ← digit c
  let w ← digit d
  pure (1000 * x + 100 * y + 10 * z + w)

/-- Leap year rule of the proleptic Gregorian calendar, as used by Go's
time package. -/
def isLeapYear (y : Nat) : Bool :=
  (y % 4 = 0 && y % 100 ≠ 0) || y % 400 = 0

/-- Number of days in a month. -/
def daysInMonth (y m : Nat) : Nat :=
  if m = 2 then (if isLeapYear y then 29 else 28)
  else if m = 4 || m = 6 || m = 9 || m = 11 then 30
  else 31

/-- Embedding of time.ParseInLocation with layout
2006-01-02 15:04:05: a fixed-width date-time string with range checks on
each component; none models a parse error. -/
def parseDateTime (s : String) : Option DateTime :=
  match s.toList with
  | [y1, y2, y3, y4, c1, m1, m2, c2, d1, d2, c3, h1, h2, c4, i1, i2, c5, s1, s2] =>
    if c1 = '-' && c2 = '-' && c3 = ' ' && c4 = ':' && c5 = ':' then do
      let year ← num4 y1 y2 y3 y4
      let month ← num2 m1 m2
      let day ← num2 d1 d2
      let hour ← num2 h1 h2
      let minute ← num2 i1 i2
      let second ← num2 s1 s2
      if 1 ≤ month && month ≤ 12 && 1 ≤ day && day ≤ daysInMonth year month
          && hour < 24 && minute < 60 && second < 60 then
        some { year := year, month := month, day := day,
               hour := hour, minute := minute, second := second }
      else
        none
    else none
  | _ => none

/-- Left-pad a number to two digits, as Go's Format does for the 01, 02,
15, 04, 05 layout fields. -/
def pad2 (n : Nat) : String :=
  if n < 10 then "0" ++ toString n else toString n

/-- Left-pad a number to four digits, as Go's Format does for the 2006
layout field. -/
def pad4 (n : Nat) : String :=
  if n < 10 then "000" ++ toString n
  else if n < 100 then "00" ++ toString n
  else if n < 1000 then "0" ++ toString n
  else toString n

/-- Embedding of Go's Format with layout 2006-01-02 15:04:05. -/
def formatDateTime (dt : DateTime) : String :=
  pad4 dt.year ++ "-" ++ pad2 dt.month ++ "-" ++ pad2 dt.day ++ " " ++
    pad2 dt.hour ++ ":" ++ pad2 dt.minute ++ ":" ++ pad2 dt.second

end NyseHalts

namespace NyseHalts

/-- The backquote character (Go raw-string quote). -/
def backquoteChar : Char := Char.ofNat 96

/-- The double-quote character. -/
def dquoteChar : Char := Char.ofNat 34

/-- The single-quote character. -/
def squoteChar : Char := Char.ofNat 39

/-- Value of a hexadecimal digit character, as Go's unhex. -/
def unhex (c : Char) : Option Nat :=
  if '0' ≤ c && c ≤ '9' then some (c.toNat - 48)
  else if 'a' ≤ c && c ≤ 'f' then some (c.toNat - 87)
  else if 'A' ≤ c && c ≤ 'F' then some (c.toNat - 55)
  else none

/-- Whether a code point is a valid rune in the sense of Go's
utf8.ValidRune: not a surrogate and at most 0x10FFFF. -/
def validRune (v : Nat) : Bool :=
  v < 0xD800 || (0xDFFF < v && v ≤ 0x10FFFF)

/-- Decode one escape sequence after a backslash, as Go's UnquoteChar does
inside a string quoted with the given quote character.  Returns the decoded
character and the remaining input, or none on a malformed escape. -/
def unquoteEscape (quote : Char) : List Char → Option (Char × List Char)
  | [] => none
  | e :: t =>
    if e = 'a' then some (Char.ofNat 7, t)
    else if e = 'b' then some (Char.ofNat 8, t)
    else if e = 'f' then some (Char.ofNat 12, t)
    else if e = 'n' then some (Char.ofNat 10, t)
    else if e = 'r' then some (Char.ofNat 13, t)
    else if e = 't' then some (Char.ofNat 9, t)
    else if e = 'v' then some (Char.ofNat 11, t)
    else if e = 'x' then
      match t with
      | h1 :: h2 :: t2 => do
        let a ← unhex h1
        let b ← unhex h2
        pure (Char.ofNat (16 * a + b), t2)
      | _ => none
    else if e = 'u' then
      match t with
      | h1 :: h2 :: h3 :: h4 :: t2 => do
        let a ← unhex h1
        let b ← unhex h2
        let c ← unhex h3
        let d ← unhex h4
        let v := 4096 * a + 256 * b + 16 * c + d
        if validRune v then pure (Char.ofNat v, t2) else none
      | _ => none
    else if e = 'U' then
      match t with
      | h1 :: h2 :: h3 :: h4 :: h5 :: h6 :: h7 :: h8 :: t2 => do
        let a ← unhex h1
        let b ← unhex h2
        let c ← unhex h3
        let d ← unhex h4
        let a2 ← unhex h5
        let b2 ← unhex h6
        let c2 ← unhex h7
        let d2 ← unhex h8
        let v := 16777216 * (4096 * a + 256 * b + 16 * c + d) +
          4096 * a2 + 256 * b2 + 16 * c2 + d2
        if validRune v then pure (Char.ofNat v, t2) else none
      | _ => none
    else if e = '\\' then some ('\\', t)
    else if '0' ≤ e && e ≤ '7' then
      match t with
      | o2 :: o3 :: t2 =>
        if ('0' ≤ o2 && o2 ≤ '7') && ('0' ≤ o3 && o3 ≤ '7') then
          let v := 64 * (e.toNat - 48) + 8 * (o2.toNat - 48) + (o3.toNat - 48)
          if v ≤ 255 then some (Char.ofNat v, t2) else none
        else none
      | _ => none
    else if (e = dquoteChar || e = squoteChar) && e = quote then some (e, t)
    else none

/-- Decode the body of a quoted string up to the terminating quote, as
Go's unquote loop: an unescaped newline or a malformed escape fails, and
the remainder after the terminating quote is returned.  Fuel bounds the
recursion; each step consumes at least one input character, so fuel equal
to the input length suffices. -/
def unquoteBody (quote : Char) : Nat → List Char → Option (List Char × List Char)
  | 0, _ => none
  | _ + 1, [] => none
  | fuel + 1, c :: rest =>
    if c = quote then some ([], rest)
    else if c = Char.ofNat 10 then none
    else if c = '\\' then
      match unquoteEscape quote rest with
      | none => none
      | some (r, rem) =>
        match unquoteBody quote fuel rem with
        | none => none
        | some (out, rem2) => some (r :: out, rem2)
    else
      match unquoteBody quote fuel rest with
      | none => none
      | some (out, rem2) => some (c :: out, rem2)

/-- Embedding of Go's strconv.Unquote: interprets s as a
quoted Go string literal (backquoted raw string, double-quoted string, or
single-quoted character) and returns the value it quotes; none models the
error return. -/
def goUnquote (s : String) : Option String :=
  match s.toList with
  | [] => none
  | [_] => none
  | q :: rest =>
    if q = backquoteChar then
      match rest.getLast? with
      | some lastc =>
        if lastc = backquoteChar && !rest.dropLast.contains backquoteChar then
          some (String.mk (rest.dropLast.filter (fun c => c ≠ Char.ofNat 13)))
        else none
      | none => none
    else if q = dquoteChar || q = squoteChar then
      match unquoteBody q rest.length rest with
      | none => none
      | some (out, rem) =>
        if rem = [] then
          if q = squoteChar then
            if out.length = 1 then some (String.mk out) else none
          else some (String.mk out)
        else none
    else none

/-- Embedding of tryUnquote: attempt strconv.Unquote and fall back to the
raw value on failure. -/
def tryUnquote (s : String) : String :=
  (goUnquote s).getD s

end NyseHalts

namespace NyseHalts

/-- Embedding of the TradeHalt record of the source: the two date/time
pairs of the feed are combined into optional timestamps, where none models
Go's zero time.Time (the absent timestamp). -/
structure TradeHalt where
  Symbol : String
  Name : String
  Exchange : String
  Reason : String
  HaltDateTime : Option DateTime
  ResumeDateTime : Option DateTime
deriving DecidableEq, Repr

/-- Fatal parse failures of parseTradeHalts.  malformedRecord models the
panic on a data row whose field count is not 8 (the MalformedFeedError of
the design document). -/
inductive ParseError where
  | malformedRecord
deriving DecidableEq, Repr

/-- Body of the record loop of parseTradeHalts for one data row: build the
TradeHalt from the row's fields, together with the list of warnings the Go
code logs for date/time strings that fail to parse.  Mirrors the source:
a timestamp is attempted only when both of its sub-fields are non-empty,
and a failed attempt leaves the timestamp absent and logs a warning. -/
def parseHaltRecord (record : List String) : TradeHalt × List String :=
  let haltDate := record.getD 0 ""
  let haltTime := record.getD 1 ""
  let symbol := record.getD 2 ""
  let resumeDate := record.getD 6 ""
  let nyseTime := record.getD 7 ""
  let haltPart : Option DateTime × List String :=
    if haltDate ≠ "" && haltTime ≠ "" then
      match parseDateTime (haltDate ++ " " ++ haltTime) with
      | some dt => (some dt, [])
      | none => (none, ["failed to parse halt datetime for " ++ symbol])
    else (none, [])
  let resumePart : Option DateTime × List String :=
    if resumeDate ≠ "" && nyseTime ≠ "" then
      match parseDateTime (resumeDate ++ " " ++ nyseTime) with
      | some dt => (some dt, [])
      | none => (none, ["failed to parse resume datetime for " ++ symbol])
    else (none, [])
  ({ Symbol := symbol
     Name := tryUnquote (record.getD 3 "")
     Exchange := record.getD 4 ""
     Reason := record.getD 5 ""
     HaltDateTime := haltPart.1
     ResumeDateTime := resumePart.1 }, haltPart.2 ++ resumePart.2)

/-- The record loop of parseTradeHalts over the data rows (the rows after
the header): a row whose field count is not 8 aborts the whole parse with
malformedRecord, as the panic in the source does; otherwise the rows'
records are collected in order along with all logged warnings. -/
def parseTradeHaltsGo : List (List String) → Except ParseError (List TradeHalt × List String)
  | [] => .ok ([], [])
  | record :: rest =>
    if record.length ≠ 8 then .error .malformedRecord
    else
      match parseTradeHaltsGo rest with
      | .error e => .error e
      | .ok (halts, ws) =>
        .ok ((parseHaltRecord record).1 :: halts, (parseHaltRecord record).2 ++ ws)

/-- Embedding of parseTradeHalts, taking the rows already decoded by the
CSV reader: fewer than 2 rows yields the empty result, otherwise the
header row (index 0) is skipped and the data rows are parsed. -/
def parseTradeHalts (records : List (List String)) : Except ParseError (List TradeHalt × List String) :=
  if records.length < 2 then .ok ([], [])
  else parseTradeHaltsGo records.tail

/-- One body row of displayHaltsTable: the six cells printed for a halt.
An absent timestamp prints as the empty string, a present one is formatted
with the 2006-01-02 15:04:05 layout, as in the source. -/
def renderHaltRow (halt : TradeHalt) : List String :=
  let haltTimeLocal :=
    match halt.HaltDateTime with
    | some dt => formatDateTime dt
    | none => ""
  let resumeTimeLocal :=
    match halt.ResumeDateTime with
    | some dt => formatDateTime dt
    | none => ""
  [halt.Symbol, halt.Name, halt.Exchange, halt.Reason, haltTimeLocal, resumeTimeLocal]

/-- The prior-snapshot state of the watch loop: a mapping from symbol to
TradeHalt, modelled as an association list with the usual map semantics
(lookup finds the unique entry for a key; insert replaces it or appends a
new entry). -/
def Snapshot : Type := List (String × TradeHalt)

/-- Lookup of a symbol in the prior-snapshot map. -/
def lookupSym : List (String × TradeHalt) → String → Option TradeHalt
  | [], _ => none
  | (k, v) :: rest, key => if k = key then some v else lookupSym rest key

/-- Insertion into the prior-snapshot map: replace the entry of the key if
present, append otherwise. -/
def insertSym : List (String × TradeHalt) → String → TradeHalt → List (String × TradeHalt)
  | [], key, v => [(key, v)]
  | (k, w) :: rest, key, v =>
    if k = key then (key, v) :: rest else (k, w) :: insertSym rest key v

/-- State threaded through the diff loop of the watch command: the
prior-snapshot map prevHalts and the haltsUpdated alert flag. -/
structure DiffState where
  prevHalts : List (String × TradeHalt)
  haltsUpdated : Bool
deriving DecidableEq, Repr

/-- One iteration of the diff loop of WatchCmd.Run, for one halt of the
current snapshot: a symbol absent from prevHalts is a new halt (store it,
raise the flag); a symbol present with a different resume timestamp is a
resume-time update (replace the stored record, raise the flag); otherwise
the state is left untouched. -/
def diffStep (st : DiffState) (halt : TradeHalt) : DiffState :=
  match lookupSym st.prevHalts halt.Symbol with
  | some prevHalt =>
    if prevHalt.ResumeDateTime ≠ halt.ResumeDateTime then
      { prevHalts := insertSym st.prevHalts halt.Symbol halt, haltsUpdated := true }
    else st
  | none =>
    { prevHalts := insertSym st.prevHalts halt.Symbol halt, haltsUpdated := true }

/-- The whole diff pass of one watch cycle: fold the diff loop over the
current snapshot starting from the prior map with the alert flag down. -/
def diffHalts (prev : List (String × TradeHalt)) (current : List TradeHalt) : DiffState :=
  current.foldl diffStep { prevHalts := prev, haltsUpdated := false }

/-- Fatal failures of a fetch, mirroring the error returns of
fetchTradeHalts: transport failure, non-200 status, CSV parse failure, and
an absent or unparsable Last-Modified header. -/
inductive FetchError where
  | transport
  | badStatus (code : Nat)
  | parseFailed (e : ParseError)
  | lastModifiedUnparsable
deriving DecidableEq, Repr

/-- Embedding of fetchTradeHalts.  The I/O boundary is passed in: the HTTP
status code, the CSV rows decoded from the body, and the outcome of
time.Parse(time.RFC1123, ...) on the Last-Modified response header (none
when the header is absent or unparsable).  A non-200 status, a malformed
body, or an unparsable Last-Modified header each yield an error, exactly
as the source returns early in those cases. -/
def fetchTradeHalts (status : Nat) (body : List (List String))
    (lastModified : Option DateTime) : Except FetchError (List TradeHalt × DateTime) :=
  if status ≠ 200 then .error (.badStatus status)
  else
    match parseTradeHalts body with
    | .error e => .error (.parseFailed e)
    | .ok (halts, _) =>
      match lastModified with
      | none => .error .lastModifiedUnparsable
      | some lm => .ok (halts, lm)

/-- Observable outcome of one successful iteration of the watch loop. -/
structure CycleOutput where
  rendered : Bool
  bell : Bool
  newPrev : List (String × TradeHalt)
deriving DecidableEq, Repr

/-- One iteration of the watch loop of WatchCmd.Run: fetch, then diff
against the prior snapshot, ring the bell iff the diff raised the flag,
and render the table.  A failed fetch is fatal (log.Fatal in the source):
the iteration produces no render and the loop terminates. -/
def watchCycle (prev : List (String × TradeHalt)) (status : Nat)
    (body : List (List String)) (lastModified : Option DateTime) :
    Except FetchError CycleOutput :=
  match fetchTradeHalts status body lastModified with
  | .error e => .error e
  | .ok (currentHalts, _) =>
    let st := diffHalts prev currentHalts
    .ok { rendered := true, bell := st.haltsUpdated, newPrev := st.prevHalts }

end NyseHalts

namespace NyseHalts

theorem lookupSym_insertSym_self (m : List (String × TradeHalt)) (k : String) (v : TradeHalt) :
    lookupSym (insertSym m k v) k = some v := by
  induction m with
  | nil => simp [insertSym, lookupSym]
  | cons p rest ih =>
    obtain ⟨k2, w⟩ := p
    by_cases h : k2 = k
    · simp [insertSym, h, lookupSym]
    · simp [insertSym, h, lookupSym, ih]

theorem lookupSym_insertSym_ne (m : List (String × TradeHalt)) (k k2 : String)
    (v : TradeHalt) (h : k2 ≠ k) :
    lookupSym (insertSym m k v) k2 = lookupSym m k2 := by
  induction m with
  | nil => simp [insertSym, lookupSym, Ne.symm h]
  | cons p rest ih =>
    obtain ⟨k3, w⟩ := p
    by_cases h3 : k3 = k
    · subst h3
      simp [insertSym, lookupSym, Ne.symm h]
    · simp [insertSym, h3, lookupSym, ih]

theorem isSome_lookupSym_insertSym (m : List (String × TradeHalt)) (k k2 : String)
    (v : TradeHalt) (h : (lookupSym m k2).isSome) :
    (lookupSym (insertSym m k v) k2).isSome := by
  by_cases hk : k2 = k
  · subst hk
    rw [lookupSym_insertSym_self]
    rfl
  · rw [lookupSym_insertSym_ne m k k2 v hk]
    exact h

theorem diffStep_haltsUpdated_mono (st : DiffState) (halt : TradeHalt)
    (hu : st.haltsUpdated = true) : (diffStep st halt).haltsUpdated = true := by
  unfold diffStep
  cases lookupSym st.prevHalts halt.Symbol with
  | none => rfl
  | some p =>
    by_cases hr : p.ResumeDateTime ≠ halt.ResumeDateTime <;> simp [hr, hu]

theorem diffStep_lookup_ne (st : DiffState) (halt : TradeHalt) (k : String)
    (hne : k ≠ halt.Symbol) :
    lookupSym (diffStep st halt).prevHalts k = lookupSym st.prevHalts k := by
  unfold diffStep
  cases lookupSym st.prevHalts halt.Symbol with
  | none => simp [lookupSym_insertSym_ne _ _ _ _ hne]
  | some p =>
    by_cases hr : p.ResumeDateTime ≠ halt.ResumeDateTime <;>
      simp [hr, lookupSym_insertSym_ne _ _ _ _ hne]

theorem diffStep_lookup_self (st : DiffState) (halt : TradeHalt) :
    ∃ r, lookupSym (diffStep st halt).prevHalts halt.Symbol = some r ∧
      r.ResumeDateTime = halt.ResumeDateTime := by
  unfold diffStep
  cases hl : lookupSym st.prevHalts halt.Symbol with
  | none => exact ⟨halt, by simp [lookupSym_insertSym_self], rfl⟩
  | some p =>
    by_cases hr : p.ResumeDateTime ≠ halt.ResumeDateTime
    · exact ⟨halt, by simp [hr, lookupSym_insertSym_self], rfl⟩
    · rw [not_ne_iff] at hr
      exact ⟨p, by simp [hr, hl], hr⟩

theorem diffStep_isSome (st : DiffState) (halt : TradeHalt) (k : String)
    (hs : (lookupSym st.prevHalts k).isSome) :
    (lookupSym (diffStep st halt).prevHalts k).isSome := by
  unfold diffStep
  cases lookupSym st.prevHalts halt.Symbol with
  | none => exact isSome_lookupSym_insertSym _ _ _ _ hs
  | some p =>
    by_cases hr : p.ResumeDateTime ≠ halt.ResumeDateTime <;> simp [hr, hs]
    exact isSome_lookupSym_insertSym _ _ _ _ hs

theorem diffStep_changed (st : DiffState) (halt : TradeHalt)
    (hc : lookupSym st.prevHalts halt.Symbol = none ∨
      ∃ p, lookupSym st.prevHalts halt.Symbol = some p ∧
        p.ResumeDateTime ≠ halt.ResumeDateTime) :
    diffStep st halt =
      { prevHalts := insertSym st.prevHalts halt.Symbol halt, haltsUpdated := true } := by
  unfold diffStep
  rcases hc with hc | ⟨p, hp, hr⟩
  · rw [hc]
  · rw [hp]
    simp [hr]

theorem diffStep_same (st : DiffState) (halt p : TradeHalt)
    (hp : lookupSym st.prevHalts halt.Symbol = some p)
    (hr : p.ResumeDateTime = halt.ResumeDateTime) :
    diffStep st halt = st := by
  unfold diffStep
  rw [hp]
  simp [hr]

theorem foldl_diffStep_updated_mono (L : List TradeHalt) (st : DiffState)
    (hu : st.haltsUpdated = true) : (L.foldl diffStep st).haltsUpdated = true := by
  induction L generalizing st with
  | nil => exact hu
  | cons h t ih => exact ih _ (diffStep_haltsUpdated_mono _ _ hu)

theorem foldl_diffStep_lookup_notmem (L : List TradeHalt) (st : DiffState) (k : String)
    (hk : k ∉ L.map TradeHalt.Symbol) :
    lookupSym (L.foldl diffStep st).prevHalts k = lookupSym st.prevHalts k := by
  induction L generalizing st with
  | nil => rfl
  | cons h t ih =>
    simp only [List.map_cons, List.mem_cons, not_or] at hk
    rw [List.foldl_cons, ih _ hk.2, diffStep_lookup_ne _ _ _ hk.1]

theorem foldl_diffStep_isSome (L : List TradeHalt) (st : DiffState) (k : String)
    (hs : (lookupSym st.prevHalts k).isSome) :
    (lookupSym (L.foldl diffStep st).prevHalts k).isSome := by
  induction L generalizing st with
  | nil => exact hs
  | cons h t ih => exact ih _ (diffStep_isSome _ _ _ hs)

theorem diffHalts_step_char (prev : List (String × TradeHalt)) (current : List TradeHalt)
    (halt : TradeHalt) (hnd : (current.map TradeHalt.Symbol).Nodup) (hmem : halt ∈ current) :
    ∃ st : DiffState,
      lookupSym st.prevHalts halt.Symbol = lookupSym prev halt.Symbol ∧
      lookupSym (diffHalts prev current).prevHalts halt.Symbol =
        lookupSym (diffStep st halt).prevHalts halt.Symbol ∧
      ((diffStep st halt).haltsUpdated = true →
        (diffHalts prev current).haltsUpdated = true) := by
  obtain ⟨pre, post, rfl⟩ := List.append_of_mem hmem
  have hmap : ((pre ++ halt :: post).map TradeHalt.Symbol) =
      pre.map TradeHalt.Symbol ++ halt.Symbol :: post.map TradeHalt.Symbol := by
    simp
  rw [hmap] at hnd
  have hpost : halt.Symbol ∉ post.map TradeHalt.Symbol :=
    (List.nodup_cons.mp hnd.of_append_right).1
  have hpre : halt.Symbol ∉ pre.map TradeHalt.Symbol := fun hin =>
    (List.disjoint_of_nodup_append hnd) hin (List.mem_cons_self _ _)
  refine ⟨pre.foldl diffStep { prevHalts := prev, haltsUpdated := false }, ?_, ?_, ?_⟩
  · exact foldl_diffStep_lookup_notmem pre _ _ hpre
  · unfold diffHalts
    rw [List.foldl_append, List.foldl_cons]
    exact foldl_diffStep_lookup_notmem post _ _ hpost
  · intro hu
    unfold diffHalts
    rw [List.foldl_append, List.foldl_cons]
    exact foldl_diffStep_updated_mono post _ hu

theorem foldl_diffStep_fixed (L : List TradeHalt) (m : List (String × TradeHalt)) (b : Bool)
    (hall : ∀ h ∈ L, ∃ r, lookupSym m h.Symbol = some r ∧
      r.ResumeDateTime = h.ResumeDateTime) :
    L.foldl diffStep { prevHalts := m, haltsUpdated := b } =
      { prevHalts := m, haltsUpdated := b } := by
  induction L with
  | nil => rfl
  | cons h t ih =>
    obtain ⟨r, hr, hre⟩ := hall h (List.mem_cons_self _ _)
    rw [List.foldl_cons, diffStep_same _ h r hr hre,
      ih (fun g hg => hall g (List.mem_cons_of_mem _ hg))]

theorem diffHalts_resume_stable (prev : List (String × TradeHalt))
    (current : List TradeHalt) (halt : TradeHalt)
    (hnd : (current.map TradeHalt.Symbol).Nodup) (hmem : halt ∈ current) :
    ∃ r, lookupSym (diffHalts prev current).prevHalts halt.Symbol = some r ∧
      r.ResumeDateTime = halt.ResumeDateTime := by
  obtain ⟨st, _, heq, _⟩ := diffHalts_step_char prev current halt hnd hmem
  obtain ⟨r, hr, hre⟩ := diffStep_lookup_self st halt
  exact ⟨r, heq.trans hr, hre⟩

end NyseHalts

namespace NyseHalts

theorem parseTradeHaltsGo_error (rows : List (List String)) (row : List String)
    (hmem : row ∈ rows) (hlen : row.length ≠ 8) :
    parseTradeHaltsGo rows = .error .malformedRecord := by
  induction rows with
  | nil => cases hmem
  | cons r rest ih =>
    by_cases h8 : r.length ≠ 8
    · simp [parseTradeHaltsGo, h8]
    · rcases List.mem_cons.mp hmem with he | ht
      · exact absurd (he ▸ hlen) h8
      · simp [parseTradeHaltsGo, h8, ih ht]

theorem parseHaltRecord_halt_empty (record : List String)
    (h : record.getD 0 "" = "" ∨ record.getD 1 "" = "") :
    (parseHaltRecord record).1.HaltDateTime = none := by
  rcases h with h | h <;>
    simp only [List.getD_eq_getElem?_getD] at h <;>
    simp [parseHaltRecord, h]

theorem parseHaltRecord_resume_empty (record : List String)
    (h : record.getD 6 "" = "" ∨ record.getD 7 "" = "") :
    (parseHaltRecord record).1.ResumeDateTime = none := by
  rcases h with h | h <;>
    simp only [List.getD_eq_getElem?_getD] at h <;>
    simp [parseHaltRecord, h]

theorem parseHaltRecord_halt_unparsable (record : List String)
    (h0 : record.getD 0 "" ≠ "") (h1 : record.getD 1 "" ≠ "")
    (hp : parseDateTime (record.getD 0 "" ++ " " ++ record.getD 1 "") = none) :
    (parseHaltRecord record).1.HaltDateTime = none ∧
      ("failed to parse halt datetime for " ++ record.getD 2 "") ∈
        (parseHaltRecord record).2 := by
  simp only [List.getD_eq_getElem?_getD] at h0 h1 hp ⊢
  constructor <;> simp [parseHaltRecord, h0, h1, hp]

theorem parseHaltRecord_resume_unparsable (record : List String)
    (h6 : record.getD 6 "" ≠ "") (h7 : record.getD 7 "" ≠ "")
    (hp : parseDateTime (record.getD 6 "" ++ " " ++ record.getD 7 "") = none) :
    (parseHaltRecord record).1.ResumeDateTime = none ∧
      ("failed to parse resume datetime for " ++ record.getD 2 "") ∈
        (parseHaltRecord record).2 := by
  simp only [List.getD_eq_getElem?_getD] at h6 h7 hp ⊢
  constructor <;> simp [parseHaltRecord, h6, h7, hp]

theorem parseTradeHalts_single (record header : List String) (h8 : record.length = 8) :
    parseTradeHalts [header, record] =
      .ok ([(parseHaltRecord record).1], (parseHaltRecord record).2) := by
  simp [parseTradeHalts, parseTradeHaltsGo, h8]

theorem renderHaltRow_absent_halt (halt : TradeHalt) (h : halt.HaltDateTime = none) :
    (renderHaltRow halt).getD 4 "ERR" = "" := by
  simp [renderHaltRow, h]

end NyseHalts

namespace NyseHalts

/-- A resume timestamp used in concrete examples. -/
def sampleResumeTime : DateTime :=
  { year := 2024, month := 1, day := 2, hour := 9, minute := 30, second := 0 }

/-- A halted symbol with no resume time. -/
def sampleHalt : TradeHalt :=
  { Symbol := "AAPL", Name := "Apple Inc", Exchange := "NYSE", Reason := "LUDP",
    HaltDateTime := none, ResumeDateTime := none }

/-- The same symbol after its resume time is published. -/
def sampleResumed : TradeHalt :=
  { sampleHalt with ResumeDateTime := some sampleResumeTime }

/-- The same symbol with a changed reason but an unchanged resume time. -/
def sampleOtherReason : TradeHalt :=
  { sampleHalt with Reason := "M 5.3" }

/-- A second halted symbol. -/
def tslaHalt : TradeHalt :=
  { Symbol := "TSLA", Name := "Tesla", Exchange := "NYSE", Reason := "LUDP",
    HaltDateTime := none, ResumeDateTime := none }

/-- A well-formed 8-field header row. -/
def hdr8 : List String :=
  ["Halt Date", "Halt Time", "Symbol", "Name", "Exchange", "Reason",
   "Resume Date", "NYSE Time"]

/-- A data row whose date/time fields are non-empty but unparsable. -/
def badDateRow : List String :=
  ["bad", "bad", "SYM", "Nm", "NYSE", "T1", "", ""]

/-- A data row whose date/time fields are all empty. -/
def emptyDateRow : List String :=
  ["", "", "SYM", "Nm", "NYSE", "T1", "", ""]

/-- A data row whose name field is not a quoted string. -/
def rawNameRow : List String :=
  ["", "", "ACME", "ACME Corp", "NYSE", "T1", "", ""]

/-- A data row whose name field is a quoted string. -/
def quotedNameRow : List String :=
  ["", "", "AAPL", "\"Apple Inc\"", "NYSE", "T1", "", ""]

/-- C1: for every current snapshot (with the snapshot invariant that its
symbols are unique) and prior snapshot, each symbol of the current
snapshot that is absent from the prior snapshot raises the alert flag and
has its record stored, whatever its other fields hold; and each symbol
present in both whose resume timestamp differs (including absent vs
present) raises the alert flag and has its current record replace the
stored one. -/
theorem differ_alerts_new_and_updated (prev : List (String × TradeHalt))
    (current : List TradeHalt) (halt : TradeHalt)
    (hnd : (current.map TradeHalt.Symbol).Nodup) (hmem : halt ∈ current)
    (hc : lookupSym prev halt.Symbol = none ∨
      ∃ p, lookupSym prev halt.Symbol = some p ∧
        p.ResumeDateTime ≠ halt.ResumeDateTime) :
    (diffHalts prev current).haltsUpdated = true ∧
    lookupSym (diffHalts prev current).prevHalts halt.Symbol = some halt := by
  obtain ⟨st, hst, heq, hflag⟩ := diffHalts_step_char prev current halt hnd hmem
  have hc2 : lookupSym st.prevHalts halt.Symbol = none ∨
      ∃ p, lookupSym st.prevHalts halt.Symbol = some p ∧
        p.ResumeDateTime ≠ halt.ResumeDateTime := by
    rw [hst]
    exact hc
  have hstep := diffStep_changed st halt hc2
  constructor
  · exact hflag (by rw [hstep])
  · rw [heq, hstep]
    exact lookupSym_insertSym_self _ _ _

/-- Witness for differ_alerts_new_and_updated: a fresh symbol alerts and is
stored; a known symbol whose resume time goes from absent to present
alerts and its record is replaced. -/
theorem differ_alerts_new_and_updated_witness :
    ((diffHalts [] [sampleHalt]).haltsUpdated = true ∧
      lookupSym (diffHalts [] [sampleHalt]).prevHalts "AAPL" = some sampleHalt) ∧
    ((diffHalts [("AAPL", sampleHalt)] [sampleResumed]).haltsUpdated = true ∧
      lookupSym (diffHalts [("AAPL", sampleHalt)] [sampleResumed]).prevHalts "AAPL" =
        some sampleResumed) :=
  ⟨differ_alerts_new_and_updated [] [sampleHalt] sampleHalt (by decide) (by decide)
      (Or.inl (by decide)),
    differ_alerts_new_and_updated [("AAPL", sampleHalt)] [sampleResumed] sampleResumed
      (by decide) (by decide) (Or.inr ⟨sampleHalt, by decide, by decide⟩)⟩

/-- C2: every input with at least two CSV rows, one of whose data rows has
a field count other than 8, makes the whole parse abort with the
malformed-feed error and produce no partial sequence of records. -/
theorem malformed_data_row_aborts_parse (records : List (List String)) (row : List String)
    (hmem : row ∈ records.tail) (hlen : row.length ≠ 8) :
    parseTradeHalts records = .error .malformedRecord := by
  cases records with
  | nil => simp at hmem
  | cons hd tl =>
    rw [List.tail_cons] at hmem
    have h2 : ¬((hd :: tl).length < 2) := by
      cases tl with
      | nil => simp at hmem
      | cons a b =>
        simp only [List.length_cons]
        omega
    simp only [parseTradeHalts, List.tail_cons]
    rw [if_neg h2]
    exact parseTradeHaltsGo_error tl row hmem hlen

/-- Witness for malformed_data_row_aborts_parse: a 2-field data row under
an 8-field header aborts the parse. -/
theorem malformed_data_row_aborts_parse_witness :
    parseTradeHalts [hdr8, ["SYM", "Nm"]] = .error .malformedRecord :=
  malformed_data_row_aborts_parse [hdr8, ["SYM", "Nm"]] ["SYM", "Nm"]
    (by decide) (by decide)

/-- C3 counterexample: a fetch with status 200 and a well-formed body but
no parsable Last-Modified header makes the watch cycle abort with an
error; it does not complete and render with a degraded last-updated
field. -/
theorem lastModified_missing_fatal_cex :
    watchCycle [] 200 [] none = .error .lastModifiedUnparsable := rfl

/-- C3 (amended): a fetch whose response lacks a parsable Last-Modified
header is fatal: the watch cycle always yields an error and never
completes with a render, and when the status is 200 and the body parses
the error is precisely the failed header parse. -/
theorem lastModified_missing_aborts_cycle (prev : List (String × TradeHalt))
    (status : Nat) (body : List (List String)) :
    (∃ e, watchCycle prev status body none = .error e) ∧
    (status = 200 → ∀ halts ws, parseTradeHalts body = .ok (halts, ws) →
      watchCycle prev status body none = .error .lastModifiedUnparsable) := by
  constructor
  · by_cases hs : status ≠ 200
    · exact ⟨.badStatus status, by simp [watchCycle, fetchTradeHalts, hs]⟩
    · cases hp : parseTradeHalts body with
      | error e =>
        exact ⟨.parseFailed e, by simp [watchCycle, fetchTradeHalts, hs, hp]⟩
      | ok pr =>
        obtain ⟨halts, ws⟩ := pr
        exact ⟨.lastModifiedUnparsable, by simp [watchCycle, fetchTradeHalts, hs, hp]⟩
  · intro h200 halts ws hp
    subst h200
    simp [watchCycle, fetchTradeHalts, hp]

/-- Witness for lastModified_missing_aborts_cycle: with a 200 status and a
parsable two-row body, the missing header aborts the cycle. -/
theorem lastModified_missing_aborts_cycle_witness :
    watchCycle [] 200 [hdr8, emptyDateRow] none = .error .lastModifiedUnparsable :=
  (lastModified_missing_aborts_cycle [] 200 [hdr8, emptyDateRow]).2 rfl
    [(parseHaltRecord emptyDateRow).1] [] rfl

/-- C4: diffing is idempotent: running the differ on a snapshot (symbols
unique) against the prior state it itself produced raises no alert on the
second pass. -/
theorem diff_idempotent (prev : List (String × TradeHalt)) (current : List TradeHalt)
    (hnd : (current.map TradeHalt.Symbol).Nodup) :
    (diffHalts (diffHalts prev current).prevHalts current).haltsUpdated = false := by
  have hall : ∀ h ∈ current, ∃ r,
      lookupSym (diffHalts prev current).prevHalts h.Symbol = some r ∧
      r.ResumeDateTime = h.ResumeDateTime :=
    fun h hm => diffHalts_resume_stable prev current h hnd hm
  show (current.foldl diffStep
    { prevHalts := (diffHalts prev current).prevHalts, haltsUpdated := false }).haltsUpdated
      = false
  rw [foldl_diffStep_fixed current (diffHalts prev current).prevHalts false hall]

/-- Witness for diff_idempotent: feeding the same one-element snapshot
twice alerts only on the first pass. -/
theorem diff_idempotent_witness :
    (diffHalts (diffHalts [] [sampleResumed]).prevHalts [sampleResumed]).haltsUpdated
      = false :=
  diff_idempotent [] [sampleResumed] (by decide)

/-- C5: a symbol present in both snapshots with the same resume timestamp
contributes no alert and leaves the stored record untouched, even when
other fields such as the reason differ: the diff step fixes any state in
which the symbol maps to that record, and after the whole diff pass the
stored record is still the prior one. -/
theorem diff_same_resume_untouched (prev : List (String × TradeHalt))
    (current : List TradeHalt) (halt prevHalt : TradeHalt)
    (hnd : (current.map TradeHalt.Symbol).Nodup) (hmem : halt ∈ current)
    (hfound : lookupSym prev halt.Symbol = some prevHalt)
    (hsame : prevHalt.ResumeDateTime = halt.ResumeDateTime) :
    lookupSym (diffHalts prev current).prevHalts halt.Symbol = some prevHalt ∧
    ∀ st : DiffState, lookupSym st.prevHalts halt.Symbol = some prevHalt →
      diffStep st halt = st := by
  have hstep : ∀ st : DiffState, lookupSym st.prevHalts halt.Symbol = some prevHalt →
      diffStep st halt = st :=
    fun st hst => diffStep_same st halt prevHalt hst hsame
  refine ⟨?_, hstep⟩
  obtain ⟨st, hst, heq, _⟩ := diffHalts_step_char prev current halt hnd hmem
  have hfound2 : lookupSym st.prevHalts halt.Symbol = some prevHalt := by
    rw [hst]
    exact hfound
  rw [heq, hstep st hfound2, hfound2]

/-- Witness for diff_same_resume_untouched: a reason change without a
resume-time change neither alerts nor touches the stored record. -/
theorem diff_same_resume_untouched_witness :
    lookupSym (diffHalts [("AAPL", sampleHalt)] [sampleOtherReason]).prevHalts "AAPL" =
      some sampleHalt ∧
    diffStep { prevHalts := [("AAPL", sampleHalt)], haltsUpdated := false }
        sampleOtherReason =
      { prevHalts := [("AAPL", sampleHalt)], haltsUpdated := false } := by
  have h := diff_same_resume_untouched [("AAPL", sampleHalt)] [sampleOtherReason]
    sampleOtherReason sampleHalt (by decide) (by decide) (by decide) (by decide)
  exact ⟨h.1, h.2 _ (by decide)⟩

/-- C6: the differ never removes entries: every symbol mapped in the prior
state is still mapped after a whole diff pass, for any current
snapshot. -/
theorem diff_never_removes (prev : List (String × TradeHalt))
    (current : List TradeHalt) (sym : String)
    (h : (lookupSym prev sym).isSome) :
    (lookupSym (diffHalts prev current).prevHalts sym).isSome := by
  show (lookupSym (current.foldl diffStep
    { prevHalts := prev, haltsUpdated := false }).prevHalts sym).isSome
  exact foldl_diffStep_isSome current _ sym h

/-- Witness for diff_never_removes: a symbol that vanished from the feed
stays in the prior state. -/
theorem diff_never_removes_witness :
    (lookupSym (diffHalts [("AAPL", sampleHalt)] [tslaHalt]).prevHalts "AAPL").isSome :=
  diff_never_removes [("AAPL", sampleHalt)] [tslaHalt] "AAPL" (by decide)

/-- C7: an empty date or time sub-field leaves the corresponding timestamp
absent without error; non-empty but unparsable sub-fields leave the
timestamp absent, log a non-fatal warning and the parse still succeeds;
and a record with an absent halt timestamp renders an empty cell rather
than a placeholder. -/
theorem timestamp_parse_tolerant (record header : List String)
    (h8 : record.length = 8) :
    ((record.getD 0 "" = "" ∨ record.getD 1 "" = "") →
      (parseHaltRecord record).1.HaltDateTime = none) ∧
    ((record.getD 6 "" = "" ∨ record.getD 7 "" = "") →
      (parseHaltRecord record).1.ResumeDateTime = none) ∧
    (record.getD 0 "" ≠ "" → record.getD 1 "" ≠ "" →
      parseDateTime (record.getD 0 "" ++ " " ++ record.getD 1 "") = none →
      (parseHaltRecord record).1.HaltDateTime = none ∧
        ("failed to parse halt datetime for " ++ record.getD 2 "") ∈
          (parseHaltRecord record).2) ∧
    (record.getD 6 "" ≠ "" → record.getD 7 "" ≠ "" →
      parseDateTime (record.getD 6 "" ++ " " ++ record.getD 7 "") = none →
      (parseHaltRecord record).1.ResumeDateTime = none ∧
        ("failed to parse resume datetime for " ++ record.getD 2 "") ∈
          (parseHaltRecord record).2) ∧
    parseTradeHalts [header, record] =
      .ok ([(parseHaltRecord record).1], (parseHaltRecord record).2) ∧
    ((parseHaltRecord record).1.HaltDateTime = none →
      (renderHaltRow (parseHaltRecord record).1).getD 4 "ERR" = "") :=
  ⟨parseHaltRecord_halt_empty record, parseHaltRecord_resume_empty record,
    parseHaltRecord_halt_unparsable record, parseHaltRecord_resume_unparsable record,
    parseTradeHalts_single record header h8,
    renderHaltRow_absent_halt (parseHaltRecord record).1⟩

/-- Witness for timestamp_parse_tolerant: an unparsable date yields an
absent timestamp plus a logged warning while the parse succeeds, and an
all-empty date renders as an empty cell. -/
theorem timestamp_parse_tolerant_witness :
    (parseHaltRecord badDateRow).1.HaltDateTime = none ∧
    ("failed to parse halt datetime for SYM") ∈ (parseHaltRecord badDateRow).2 ∧
    parseTradeHalts [hdr8, badDateRow] =
      .ok ([(parseHaltRecord badDateRow).1], (parseHaltRecord badDateRow).2) ∧
    (parseHaltRecord emptyDateRow).1.HaltDateTime = none ∧
    (renderHaltRow (parseHaltRecord emptyDateRow).1).getD 4 "ERR" = "" := by
  have h1 := timestamp_parse_tolerant badDateRow hdr8 (by decide)
  have h2 := timestamp_parse_tolerant emptyDateRow hdr8 (by decide)
  have hbad := h1.2.2.1 (by decide) (by decide) (by decide)
  have hemp : (parseHaltRecord emptyDateRow).1.HaltDateTime = none :=
    h2.1 (Or.inl (by decide))
  exact ⟨hbad.1, hbad.2, h1.2.2.2.2.1, hemp, h2.2.2.2.2.2 hemp⟩

/-- C8: an input with fewer than 2 CSV rows (empty, or a lone header row)
parses to the empty sequence without error. -/
theorem short_input_yields_empty (records : List (List String))
    (h : records.length < 2) :
    parseTradeHalts records = .ok ([], []) := by
  simp [parseTradeHalts, h]

/-- Witness for short_input_yields_empty: the empty input and a header-only
input both yield the empty sequence. -/
theorem short_input_yields_empty_witness :
    parseTradeHalts [] = .ok ([], []) ∧ parseTradeHalts [hdr8] = .ok ([], []) :=
  ⟨short_input_yields_empty [] (by decide),
    short_input_yields_empty [hdr8] (by decide)⟩

/-- C9: the parser unescapes the issuer name field through tryUnquote: the
parsed name is always tryUnquote of the raw field, it equals the raw field
unchanged when unescaping fails, and the unescaped value when it
succeeds. -/
theorem name_unquote_fallback (record : List String) :
    (parseHaltRecord record).1.Name = tryUnquote (record.getD 3 "") ∧
    (goUnquote (record.getD 3 "") = none →
      (parseHaltRecord record).1.Name = record.getD 3 "") ∧
    (∀ u, goUnquote (record.getD 3 "") = some u →
      (parseHaltRecord record).1.Name = u) := by
  have hn : (parseHaltRecord record).1.Name = tryUnquote (record.getD 3 "") := by
    simp [parseHaltRecord]
  refine ⟨hn, fun hno => ?_, fun u hu => ?_⟩
  · rw [hn]
    unfold tryUnquote
    rw [hno]
    rfl
  · rw [hn]
    unfold tryUnquote
    rw [hu]
    rfl

/-- Witness for name_unquote_fallback: an unquoted name falls back to the
raw value, a quoted name is unescaped. -/
theorem name_unquote_fallback_witness :
    (parseHaltRecord rawNameRow).1.Name = "ACME Corp" ∧
    (parseHaltRecord quotedNameRow).1.Name = "Apple Inc" :=
  ⟨(name_unquote_fallback rawNameRow).2.1 (by decide),
    (name_unquote_fallback quotedNameRow).2.2 "Apple Inc" (by decide)⟩

/-- C10: the 8-field count check never applies to the header row — the
parse result is unchanged under replacing the header by any other row —
and a single-row input is not checked at all: a lone row with a field
count other than 8 parses to the empty sequence. -/
theorem header_row_unchecked :
    (∀ (hd hd2 : List String) (rows : List (List String)),
      parseTradeHalts (hd :: rows) = parseTradeHalts (hd2 :: rows)) ∧
    (∀ row : List String, row.length ≠ 8 → parseTradeHalts [row] = .ok ([], [])) := by
  constructor
  · intro hd hd2 rows
    cases rows with
    | nil => rfl
    | cons r rs =>
      have h2 : ∀ x : List String, ¬((x :: r :: rs).length < 2) := by
        intro x
        simp only [List.length_cons]
        omega
      simp only [parseTradeHalts]
      rw [if_neg (h2 hd), if_neg (h2 hd2)]
      rfl
  · intro row hrow
    simp [parseTradeHalts]

/-- Witness for header_row_unchecked: two different headers give the same
parse, and a lone 1-field row parses to the empty sequence. -/
theorem header_row_unchecked_witness :
    parseTradeHalts [["a"], ["x", "y"]] = parseTradeHalts [["b", "c"], ["x", "y"]] ∧
    parseTradeHalts [["lone"]] = .ok ([], []) :=
  ⟨header_row_unchecked.1 ["a"] ["b", "c"] [["x", "y"]],
    header_row_unchecked.2 ["lone"] (by decide)⟩

end NyseHalts
